import Mathlib

/-!
Shallow embedding of the pykeyemu typing engine (constants.py, utils.py,
wininput.py) and proofs of its specified properties.

Modelling conventions:
* Python strings of length one are modelled as `Char`; whole strings as
  `List Char`.
* Python floats are modelled as exact rationals `ℚ`.
* `random.uniform` / `random.random` draws are modelled as explicit
  parameters (an injectable random source), constrained by hypotheses to
  the interval the Python generator guarantees.
* The Win32 `SendInput` call is modelled as an external collaborator
  `inject : List KeyEvent → Bool`; every emission of key events to the
  operating system happens exactly at a `send_input` call, and each
  function returns the list of events it emitted alongside its result.
* Python `raise ValueError` is modelled as `Except.error`.
-/

namespace PyKeyEmu

/-- constants.py: `VK_SHIFT = 0x10`. -/
def VK_SHIFT : Int := 0x10

/-- constants.py: the `CHAR_TO_VK` dictionary, mapping a character to its
virtual key code (`none` models absence from the dictionary). -/
def CHAR_TO_VK : Char → Option Int
  | 'a' => some 0x41 | 'b' => some 0x42 | 'c' => some 0x43 | 'd' => some 0x44
  | 'e' => some 0x45 | 'f' => some 0x46 | 'g' => some 0x47 | 'h' => some 0x48
  | 'i' => some 0x49 | 'j' => some 0x4A | 'k' => some 0x4B | 'l' => some 0x4C
  | 'm' => some 0x4D | 'n' => some 0x4E | 'o' => some 0x4F | 'p' => some 0x50
  | 'q' => some 0x51 | 'r' => some 0x52 | 's' => some 0x53 | 't' => some 0x54
  | 'u' => some 0x55 | 'v' => some 0x56 | 'w' => some 0x57 | 'x' => some 0x58
  | 'y' => some 0x59 | 'z' => some 0x5A
  | '0' => some 0x30 | '1' => some 0x31 | '2' => some 0x32 | '3' => some 0x33
  | '4' => some 0x34 | '5' => some 0x35 | '6' => some 0x36 | '7' => some 0x37
  | '8' => some 0x38 | '9' => some 0x39
  | ' ' => some 0x20 | '\t' => some 0x09 | '\n' => some 0x0D | '\r' => some 0x0D
  | ';' => some 0xBA | '=' => some 0xBB | ',' => some 0xBC | '-' => some 0xBD
  | '.' => some 0xBE | '/' => some 0xBF | '`' => some 0xC0 | '[' => some 0xDB
  | '\\' => some 0xDC | ']' => some 0xDD | '\'' => some 0xDE
  | _ => none

/-- constants.py: the `SHIFT_CHARS` set of characters that require the
shift key. -/
def SHIFT_CHARS (c : Char) : Bool :=
  ('A' ≤ c && c ≤ 'Z') ||
  c == '!' || c == '@' || c == '#' || c == '$' || c == '%' || c == '^' ||
  c == '&' || c == '*' || c == '(' || c == ')' || c == '_' || c == '+' ||
  c == '\x7b' || c == '\x7d' || c == '|' || c == ':' || c == '\"' ||
  c == '<' || c == '>' || c == '?' || c == '~'

/-- constants.py: the `SHIFT_CHAR_MAP` dictionary, mapping a shifted symbol
to the base character of its key. -/
def SHIFT_CHAR_MAP : Char → Option Char
  | '!' => some '1' | '@' => some '2' | '#' => some '3' | '$' => some '4'
  | '%' => some '5' | '^' => some '6' | '&' => some '7' | '*' => some '8'
  | '(' => some '9' | ')' => some '0' | '_' => some '-' | '+' => some '='
  | '\x7b' => some '[' | '\x7d' => some ']' | '|' => some '\\'
  | ':' => some ';' | '\"' => some '\'' | '<' => some ',' | '>' => some '.'
  | '?' => some '/' | '~' => some '`'
  | _ => none

/-- Model of Python `str.isupper` on a one-character string. It is exact on
the ASCII range (true exactly for `'A'`–`'Z'`) and on U+212A KELVIN SIGN
(for which Python returns `True`); for the remaining characters the model
conservatively returns `false`. The theorems below only evaluate it on
ASCII characters and on U+212A, where it agrees with Python exactly. -/
def py_isupper (c : Char) : Bool :=
  ('A' ≤ c && c ≤ 'Z') || c == 'K'

/-- Model of Python `str.lower` on a one-character string. It is exact on
the ASCII range (maps `'A'`–`'Z'` down by 32, fixes the rest) and on
U+212A KELVIN SIGN (which Python lowercases to `'k'`); the remaining
characters are fixed by the model. The theorems below only evaluate it on
ASCII characters and on U+212A, where it agrees with Python exactly. -/
def py_lower (c : Char) : Char :=
  if 'A' ≤ c && c ≤ 'Z' then Char.ofNat (c.toNat + 32)
  else if c == 'K' then 'k'
  else c

/-- utils.py `_is_char_supported`: decides whether a single character can
be typed. The Python `len(char) != 1` guard cannot fire for a `Char`. -/
def is_char_supported (c : Char) : Bool :=
  if (CHAR_TO_VK c).isSome then true
  else if py_isupper c && (CHAR_TO_VK (py_lower c)).isSome then true
  else if SHIFT_CHARS c then
    match SHIFT_CHAR_MAP c with
    | some base => (CHAR_TO_VK base).isSome
    | none => false
  else false

/-- utils.py `humanize_delay`: validates its arguments, then returns
`max 0 (base_delay + variation)`. The draw `variation = random.uniform
(-variance, variance)` is modelled by the explicit parameter `variation`;
callers constrain it to `[-variance, variance]` as the generator does. -/
def humanize_delay (base_delay variance variation : ℚ) : Except String ℚ :=
  if base_delay < 0 then .error "Base delay must be non-negative"
  else if variance < 0 then .error "Variance must be non-negative"
  else .ok (max 0 (base_delay + variation))

/-- utils.py `split_text_by_support`, the loop body: scans the characters,
extending the current chunk while the support flag is unchanged, closing
it (when non-empty) on a flag change, and flushing the final chunk. -/
def split_go : List Char → List Char → Bool → List (List Char × Bool) →
    List (List Char × Bool)
  | [], current_chunk, current_supported, chunks =>
    if current_chunk ≠ [] then chunks ++ [(current_chunk, current_supported)]
    else chunks
  | c :: rest, current_chunk, current_supported, chunks =>
    if is_char_supported c = current_supported then
      split_go rest (current_chunk ++ [c]) current_supported chunks
    else
      split_go rest [c] (is_char_supported c)
        (if current_chunk ≠ [] then
          chunks ++ [(current_chunk, current_supported)]
         else chunks)

/-- utils.py `split_text_by_support`: splits text into maximal runs of
supported / unsupported characters. The `isinstance(text, str)` guard
cannot fire for a `List Char`; the empty string returns `[]`. -/
def split_text_by_support (text : List Char) : List (List Char × Bool) :=
  match text with
  | [] => []
  | c :: _ => split_go text [] (is_char_supported c) []

/-- utils.py `calculate_typing_time`: counts the supported characters and
returns `(count - 1) * delay`, or `0` when the count is at most one. -/
def calculate_typing_time (text : List Char) (delay : ℚ) : Except String ℚ :=
  if delay < 0 then .error "Delay must be non-negative"
  else
    let typeable_chars := (text.filter (fun c => is_char_supported c)).length
    if typeable_chars ≤ 1 then .ok 0
    else .ok (((typeable_chars : ℚ) - 1) * delay)

/-- utils.py `create_typing_profile` returns a dict with keys `wpm`,
`base_delay`, `variance`, `pause_chance`, `pause_duration`; modelled as a
structure with the same fields. -/
structure TypingProfile where
  wpm : Int
  base_delay : ℚ
  variance : ℚ
  pause_chance : ℚ
  pause_duration : ℚ
deriving DecidableEq, Repr

/-- utils.py `create_typing_profile`: derives the timing parameters from a
words-per-minute target; raises for `wpm <= 0`. The three-way
`variance_ratio` branch (0.2 / 0.3 / 0.4) is inlined into the product. -/
def create_typing_profile (wpm : Int) : Except String TypingProfile :=
  if wpm ≤ 0 then .error "WPM must be positive"
  else
    let chars_per_minute : ℚ := (wpm : ℚ) * 5
    let chars_per_second : ℚ := chars_per_minute / 60
    let base_delay : ℚ := 1 / chars_per_second
    let vr : ℚ := if wpm ≥ 80 then 0.2 else if wpm ≥ 40 then 0.3 else 0.4
    .ok { wpm := wpm
          base_delay := base_delay
          variance := base_delay * vr
          pause_chance := 0.05
          pause_duration := base_delay * 3 }

/-- utils.py `apply_typing_profile`, the loop body. The random source is
modelled by `rnd : Nat → ℚ × ℚ`: for the `k`-th supported character,
`(rnd k).1` models the `random.random()` pause draw and `(rnd k).2` the
`random.uniform(-variance, variance)` draw inside `humanize_delay`.
Unsupported characters are skipped and consume no randomness, exactly as
in the source. -/
def apply_go (p : TypingProfile) (rnd : Nat → ℚ × ℚ) :
    List Char → Nat → Except String (List ℚ)
  | [], _ => .ok []
  | c :: rest, k =>
    if is_char_supported c then
      if (rnd k).1 < p.pause_chance then
        match apply_go p rnd rest (k + 1) with
        | .ok ds => .ok (p.pause_duration :: ds)
        | .error e => .error e
      else
        match humanize_delay p.base_delay p.variance (rnd k).2 with
        | .error e => .error e
        | .ok d =>
          match apply_go p rnd rest (k + 1) with
          | .ok ds => .ok (d :: ds)
          | .error e => .error e
    else apply_go p rnd rest k

/-- utils.py `apply_typing_profile`: generates one delay per supported
character. The `isinstance` and required-key checks cannot fire for a
`TypingProfile` value, which carries all required keys by construction. -/
def apply_typing_profile (text : List Char) (p : TypingProfile)
    (rnd : Nat → ℚ × ℚ) : Except String (List ℚ) :=
  apply_go p rnd text 0

/-- wininput.py `_create_keyboard_input`: one keyboard event handed to
`SendInput`. The `flags` argument is either `0` (key down) or
`KEYEVENTF_KEYUP = 2` (key up); it is modelled by `isKeyUp`. -/
structure KeyEvent where
  vk : Int
  isKeyUp : Bool
deriving DecidableEq, Repr

/-- `_create_keyboard_input(vk, 0)`: a key-down event. -/
def key_down (vk : Int) : KeyEvent := ⟨vk, false⟩

/-- `_create_keyboard_input(vk, KEYEVENTF_KEYUP)`: a key-up event. -/
def key_up (vk : Int) : KeyEvent := ⟨vk, true⟩

/-- wininput.py `_send_input`: hands the batch to the external collaborator
`inject` (modelling `user32.SendInput`) and reports whether every event was
accepted; an empty batch returns `True` without calling the collaborator.
The second component is the list of events actually emitted to the OS. -/
def send_input (inject : List KeyEvent → Bool) (inputs : List KeyEvent) :
    Bool × List KeyEvent :=
  if inputs = [] then (true, [])
  else (inject inputs, inputs)

/-- wininput.py `press_key`: validates the key code, then emits a single
key-down event. The `isinstance(vk_code, int)` part of the guard cannot
fire for an `Int`. -/
def press_key (inject : List KeyEvent → Bool) (vk_code : Int) :
    Except String Bool × List KeyEvent :=
  if vk_code < 0 ∨ vk_code > 255 then (.error "Invalid virtual key code", [])
  else
    let r := send_input inject [key_down vk_code]
    (.ok r.1, r.2)

/-- wininput.py `release_key`: validates the key code, then emits a single
key-up event. -/
def release_key (inject : List KeyEvent → Bool) (vk_code : Int) :
    Except String Bool × List KeyEvent :=
  if vk_code < 0 ∨ vk_code > 255 then (.error "Invalid virtual key code", [])
  else
    let r := send_input inject [key_up vk_code]
    (.ok r.1, r.2)

/-- wininput.py `tap_key`, the modifier-press loop: validates each modifier
in order while accumulating its key-down event; an invalid modifier raises
before anything has been handed to `SendInput`. -/
def build_mod_downs : List Int → Except String (List KeyEvent)
  | [] => .ok []
  | m :: rest =>
    if m < 0 ∨ m > 255 then .error "Invalid modifier key code"
    else
      match build_mod_downs rest with
      | .ok tail => .ok (key_down m :: tail)
      | .error e => .error e

/-- wininput.py `tap_key`: validates the key code and the modifiers, builds
the batch (modifier downs in order, key down, key up, modifier ups in
reverse order) and hands it to `SendInput` in one call. Python's default
`modifiers=None` and an explicit `[]` behave identically (both are falsy
in the `if modifiers:` guards), so modifiers are modelled as a plain list. -/
def tap_key (inject : List KeyEvent → Bool) (vk_code : Int)
    (modifiers : List Int) : Except String Bool × List KeyEvent :=
  if vk_code < 0 ∨ vk_code > 255 then (.error "Invalid virtual key code", [])
  else
    match build_mod_downs modifiers with
    | .error e => (.error e, [])
    | .ok downs =>
      let inputs := downs ++ [key_down vk_code, key_up vk_code] ++
        (modifiers.reverse.map key_up)
      let r := send_input inject inputs
      (.ok r.1, r.2)

/-- wininput.py `_type_character`, the code after the shift block ("Handle
regular characters"): a direct lookup, a tap on success, a warning and
`False` for an unsupported character. Python's truthiness test
`if vk_code:` is modelled as `vk ≠ 0`; the `len(char) != 1` guard cannot
fire for a `Char`. -/
def type_char_fallback (inject : List KeyEvent → Bool) (c : Char) :
    Except String Bool × List KeyEvent :=
  match CHAR_TO_VK c with
  | some vk => if vk ≠ 0 then tap_key inject vk [] else (.ok false, [])
  | none => (.ok false, [])

/-- wininput.py `_type_character`, continued: the whole function. The shift
block is tried first; when one of its lookups misses, control falls
through to `type_char_fallback`, exactly as in the source. -/
def type_character (inject : List KeyEvent → Bool) (c : Char) :
    Except String Bool × List KeyEvent :=
  if SHIFT_CHARS c then
    if py_isupper c then
      match CHAR_TO_VK (py_lower c) with
      | some vk =>
        if vk ≠ 0 then tap_key inject vk [VK_SHIFT]
        else type_char_fallback inject c
      | none => type_char_fallback inject c
    else
      match SHIFT_CHAR_MAP c with
      | some base_char =>
        match CHAR_TO_VK base_char with
        | some vk =>
          if vk ≠ 0 then tap_key inject vk [VK_SHIFT]
          else type_char_fallback inject c
        | none => type_char_fallback inject c
      | none => type_char_fallback inject c
  else type_char_fallback inject c

/-- wininput.py `type_string`, one loop iteration combined with the rest of
the loop: a raised exception propagates immediately (keeping the events the
failing call emitted, and skipping the rest of the string); otherwise the
per-character success flags are conjoined and the emitted events
concatenated in order. The `time.sleep(delay)` pacing has no effect on the
result or the event trace and is not modelled. -/
def type_string_step (r rest_r : Except String Bool × List KeyEvent) :
    Except String Bool × List KeyEvent :=
  match r with
  | (.error e, tr) => (.error e, tr)
  | (.ok b, tr) =>
    match rest_r with
    | (.error e, tr2) => (.error e, tr ++ tr2)
    | (.ok b2, tr2) => (.ok (b && b2), tr ++ tr2)

/-- wininput.py `type_string`, the loop, continued: one character, then the
rest of the string. -/
def type_string_go (inject : List KeyEvent → Bool) :
    List Char → Except String Bool × List KeyEvent
  | [] => (.ok true, [])
  | c :: rest =>
    type_string_step (type_character inject c) (type_string_go inject rest)

/-- wininput.py `type_string`: validates the delay, then types every
character. The `isinstance(text, str)` guard cannot fire for a
`List Char`. -/
def type_string (inject : List KeyEvent → Bool) (text : List Char)
    (delay : ℚ) : Except String Bool × List KeyEvent :=
  if delay < 0 then (.error "Delay must be non-negative", [])
  else type_string_go inject text

/-- wininput.py `with_modifiers`, the entry path (the code before `yield`):
for each modifier in order, validate it and immediately press it. An
invalid modifier after valid ones therefore raises with the earlier press
events already emitted; the trace component records them. The
`isinstance(modifiers, list)` guard cannot fire for a `List Int`. -/
def with_modifiers_enter (inject : List KeyEvent → Bool) :
    List Int → Except String Unit × List KeyEvent
  | [] => (.ok (), [])
  | m :: rest =>
    if m < 0 ∨ m > 255 then (.error "Invalid modifier key code", [])
    else
      let r := press_key inject m
      match with_modifiers_enter inject rest with
      | (.ok u, tr2) => (.ok u, r.2 ++ tr2)
      | (.error e, tr2) => (.error e, r.2 ++ tr2)

/-- Observer: the result `_type_character` reports when the injector always
succeeds; `false` both for the unsupported branch and for a (never
occurring) raised error. -/
def resolves_char (c : Char) : Bool :=
  match (type_character (fun _ => true) c).1 with
  | .ok b => b
  | .error _ => false

/-- Observer: the boolean result of one character inside `type_string`. -/
def char_ok (inject : List KeyEvent → Bool) (c : Char) : Bool :=
  match (type_character inject c).1 with
  | .ok b => b
  | .error _ => false

/-- Equality of modelled results (`Except`) is decidable, so concrete runs
of the embedded functions can be checked by evaluation. -/
instance {ε α : Type} [DecidableEq ε] [DecidableEq α] :
    DecidableEq (Except ε α) := fun a b =>
  match a, b with
  | .ok x, .ok y => decidable_of_iff (x = y) (by simp)
  | .error e, .error f => decidable_of_iff (e = f) (by simp)
  | .ok _, .error _ => isFalse (by simp)
  | .error _, .ok _ => isFalse (by simp)

theorem CHAR_TO_VK_bounds (c : Char) (v : Int) (h : CHAR_TO_VK c = some v) :
    0 ≤ v ∧ v ≤ 255 := by
  unfold CHAR_TO_VK at h
  split at h <;> simp_all <;> omega

theorem build_mod_downs_valid (mods : List Int)
    (h : ∀ m ∈ mods, 0 ≤ m ∧ m ≤ 255) :
    build_mod_downs mods = .ok (mods.map key_down) := by
  induction mods with
  | nil => rfl
  | cons m rest ih =>
    have hm := h m (by simp)
    have hrest : ∀ x ∈ rest, 0 ≤ x ∧ x ≤ 255 := fun x hx => h x (by simp [hx])
    simp only [build_mod_downs, ih hrest, List.map_cons]
    rw [if_neg (by omega)]

theorem tap_key_valid (inject : List KeyEvent → Bool) (vk : Int)
    (mods : List Int) (hvk : 0 ≤ vk ∧ vk ≤ 255)
    (hm : ∀ m ∈ mods, 0 ≤ m ∧ m ≤ 255) :
    tap_key inject vk mods =
      (.ok (inject (mods.map key_down ++ [key_down vk, key_up vk] ++
        mods.reverse.map key_up)),
       mods.map key_down ++ [key_down vk, key_up vk] ++
        mods.reverse.map key_up) := by
  unfold tap_key
  rw [if_neg (by omega), build_mod_downs_valid mods hm]
  simp [send_input]

theorem tap_of_lookup (inject : List KeyEvent → Bool) (c' : Char) (vk : Int)
    (mods : List Int) (hc : CHAR_TO_VK c' = some vk)
    (hmods : ∀ m ∈ mods, 0 ≤ m ∧ m ≤ 255) :
    ∃ b, (tap_key inject vk mods).1 = Except.ok b := by
  rw [tap_key_valid inject vk mods (CHAR_TO_VK_bounds c' vk hc) hmods]
  exact ⟨_, rfl⟩

theorem shift_mods_valid : ∀ m ∈ [VK_SHIFT], 0 ≤ m ∧ m ≤ 255 := by
  intro m hm
  simp only [List.mem_singleton] at hm
  subst hm
  constructor <;> norm_num [VK_SHIFT]

theorem type_char_fallback_fst (inject : List KeyEvent → Bool) (c : Char) :
    ∃ b, (type_char_fallback inject c).1 = Except.ok b := by
  unfold type_char_fallback
  cases hc : CHAR_TO_VK c with
  | none => exact ⟨false, rfl⟩
  | some vk =>
    by_cases hz : vk = 0
    · exact ⟨false, by simp [hz]⟩
    · simpa [hz] using tap_of_lookup inject c vk [] hc (by simp)

theorem type_character_fst (inject : List KeyEvent → Bool) (c : Char) :
    ∃ b, (type_character inject c).1 = Except.ok b := by
  unfold type_character
  repeat' split
  all_goals first
    | exact type_char_fallback_fst inject c
    | (rename_i vk heq hz
       exact tap_of_lookup inject _ vk [VK_SHIFT] heq shift_mods_valid)

theorem type_character_fst_eq (inject : List KeyEvent → Bool) (c : Char) :
    (type_character inject c).1 = Except.ok (char_ok inject c) := by
  obtain ⟨b, hb⟩ := type_character_fst inject c
  rw [hb]
  unfold char_ok
  rw [hb]

theorem type_string_go_spec (inject : List KeyEvent → Bool)
    (text : List Char) :
    type_string_go inject text =
      (Except.ok (text.all (fun c => char_ok inject c)),
       (text.map (fun c => (type_character inject c).2)).flatten) := by
  induction text with
  | nil => rfl
  | cons c rest ih =>
    obtain ⟨b, hb⟩ := type_character_fst inject c
    have hco : char_ok inject c = b := by unfold char_ok; rw [hb]
    rcases htc : type_character inject c with ⟨fst, snd⟩
    rw [htc] at hb
    simp only at hb
    subst hb
    simp only [type_string_go, type_string_step, htc, ih]
    simp [hco, htc]

theorem split_go_flatten (chars : List Char) :
    ∀ (cur : List Char) (sup : Bool) (acc : List (List Char × Bool)),
    ((split_go chars cur sup acc).map Prod.fst).flatten =
      (acc.map Prod.fst).flatten ++ cur ++ chars := by
  induction chars with
  | nil =>
    intro cur sup acc
    by_cases h : cur = [] <;> simp [split_go, h]
  | cons c rest ih =>
    intro cur sup acc
    simp only [split_go]
    by_cases h : is_char_supported c = sup
    · rw [if_pos h, ih]
      simp
    · rw [if_neg h]
      by_cases hc : cur = []
      · rw [if_neg (by simp [hc]), ih]
        simp [hc]
      · rw [if_pos hc, ih]
        simp

theorem split_go_chain (chars : List Char) :
    ∀ (cur : List Char) (sup : Bool) (acc : List (List Char × Bool)),
    List.Chain' (fun a b => a.2 ≠ b.2) acc →
    (∀ x ∈ acc.getLast?, x.2 ≠ sup) →
    (cur = [] → acc = []) →
    List.Chain' (fun a b => a.2 ≠ b.2) (split_go chars cur sup acc) := by
  induction chars with
  | nil =>
    intro cur sup acc hch hlast hemp
    by_cases h : cur = []
    · simpa [split_go, h] using hch
    · rw [split_go, if_pos h]
      refine List.chain'_append.mpr ⟨hch, List.chain'_singleton _, ?_⟩
      intro x hx y hy
      simp only [List.head?_cons, Option.mem_some_iff] at hy
      subst hy
      exact hlast x hx
  | cons c rest ih =>
    intro cur sup acc hch hlast hemp
    simp only [split_go]
    by_cases h : is_char_supported c = sup
    · rw [if_pos h]
      exact ih (cur ++ [c]) sup acc hch hlast (by simp)
    · rw [if_neg h]
      by_cases hc : cur = []
      · rw [if_neg (by simp [hc])]
        have hacc := hemp hc
        subst hacc
        exact ih [c] _ [] List.chain'_nil (by simp) (by simp)
      · rw [if_pos hc]
        refine ih [c] _ (acc ++ [(cur, sup)]) ?_ ?_ (by simp)
        · refine List.chain'_append.mpr ⟨hch, List.chain'_singleton _, ?_⟩
          intro x hx y hy
          simp only [List.head?_cons, Option.mem_some_iff] at hy
          subst hy
          exact hlast x hx
        · intro x hx
          rw [List.getLast?_concat] at hx
          simp only [Option.mem_some_iff] at hx
          subst hx
          exact fun hEq => h hEq.symm

theorem apply_go_spec (p : TypingProfile) (rnd : Nat → ℚ × ℚ)
    (hb : 0 < p.base_delay) (hv : 0 ≤ p.variance)
    (hgap : p.variance < p.base_delay) (hpd : 0 < p.pause_duration)
    (hr : ∀ k, -p.variance ≤ (rnd k).2 ∧ (rnd k).2 ≤ p.variance)
    (text : List Char) :
    ∀ k, ∃ ds, apply_go p rnd text k = .ok ds ∧
      ds.length = (text.filter (fun c => is_char_supported c)).length ∧
      ∀ d ∈ ds, 0 < d := by
  induction text with
  | nil => exact fun k => ⟨[], rfl, rfl, by simp⟩
  | cons c rest ih =>
    intro k
    by_cases hc : is_char_supported c = true
    · obtain ⟨ds, hds, hlen, hpos⟩ := ih (k + 1)
      by_cases hp : (rnd k).1 < p.pause_chance
      · refine ⟨p.pause_duration :: ds, ?_, ?_, ?_⟩
        · simp [apply_go, hc, hp, hds]
        · simp [hlen, hc]
        · intro d hd
          rcases List.mem_cons.mp hd with h1 | h2
          · exact h1 ▸ hpd
          · exact hpos d h2
      · have hhum : humanize_delay p.base_delay p.variance (rnd k).2 =
            .ok (max 0 (p.base_delay + (rnd k).2)) := by
          unfold humanize_delay
          rw [if_neg (by linarith), if_neg (by linarith)]
        have hdp : 0 < max 0 (p.base_delay + (rnd k).2) := by
          have h1 := (hr k).1
          have h2 : 0 < p.base_delay + (rnd k).2 := by linarith
          exact lt_max_of_lt_right h2
        refine ⟨max 0 (p.base_delay + (rnd k).2) :: ds, ?_, ?_, ?_⟩
        · simp [apply_go, hc, hp, hhum, hds]
        · simp [hlen, hc]
        · intro d hd
          rcases List.mem_cons.mp hd with h1 | h2
          · exact h1 ▸ hdp
          · exact hpos d h2
    · obtain ⟨ds, hds, hlen, hpos⟩ := ih k
      exact ⟨ds, by simp [apply_go, hc, hds], by simp [hlen, hc], hpos⟩

theorem create_profile_fields (wpm : Int) (p : TypingProfile) (hw : 0 < wpm)
    (hp : create_typing_profile wpm = .ok p) :
    0 < p.base_delay ∧ 0 ≤ p.variance ∧ p.variance < p.base_delay ∧
      0 < p.pause_duration := by
  unfold create_typing_profile at hp
  rw [if_neg (by omega)] at hp
  simp only [Except.ok.injEq] at hp
  subst hp
  have hwq : (0 : ℚ) < (wpm : ℚ) := by exact_mod_cast hw
  have h1 : (0 : ℚ) < (wpm : ℚ) * 5 / 60 :=
    div_pos (mul_pos hwq (by norm_num)) (by norm_num)
  have hbpos : (0 : ℚ) < 1 / ((wpm : ℚ) * 5 / 60) := one_div_pos.mpr h1
  refine ⟨hbpos, ?_, ?_, ?_⟩
  · exact mul_nonneg hbpos.le (by split_ifs <;> norm_num)
  · exact mul_lt_of_lt_one_right hbpos (by split_ifs <;> norm_num)
  · exact mul_pos hbpos (by norm_num)

/-- Claim C1, counterexample: at U+212A KELVIN SIGN (`isupper` is true and
its lowercase form is `'k'`, a `CHAR_TO_VK` key, but it is not in
`SHIFT_CHARS`), `_is_char_supported` answers true while `_type_character`
takes the unsupported branch even under an always-succeeding injector. -/
theorem c1_counterexample :
    is_char_supported 'K' = true ∧ resolves_char 'K' = false := by
  constructor <;> decide

/-- Claim C1 (amended): for every single-character ASCII string (code point
below 128), the support predicate `_is_char_supported` and the resolver
`_type_character` agree: the character is reported supported exactly when
typing it takes a mapped branch (returns true under an injector that
always reports success). -/
theorem c1_support_agrees_with_resolver :
    ∀ n : Nat, n < 128 →
      is_char_supported (Char.ofNat n) = resolves_char (Char.ofNat n) := by
  decide

/-- Claim C1, witness: the amended theorem applied at the code point of
`'H'`. -/
theorem c1_support_agrees_with_resolver_witness :
    72 < 128 ∧
      is_char_supported (Char.ofNat 72) = resolves_char (Char.ofNat 72) :=
  ⟨by decide, c1_support_agrees_with_resolver 72 (by decide)⟩

/-- Claim C2: for every injector, text and delay `≥ 0`, `type_string`
returns `ok` of the conjunction of the per-character results (false
exactly when some character failed), and its event trace is the
concatenation of every character's event group in order: every character
is processed, regardless of earlier failures. -/
theorem c2_type_string_best_effort (inject : List KeyEvent → Bool)
    (text : List Char) (delay : ℚ) (h : 0 ≤ delay) :
    type_string inject text delay =
      (Except.ok (text.all (fun c => char_ok inject c)),
       (text.map (fun c => (type_character inject c).2)).flatten) := by
  unfold type_string
  rw [if_neg (not_lt.mpr h)]
  exact type_string_go_spec inject text

/-- Claim C2, witness: the theorem applied at an always-succeeding
injector, the text `"a"` and delay `0`. -/
theorem c2_type_string_best_effort_witness :
    (0 : ℚ) ≤ 0 ∧
    type_string (fun _ => true) ['a'] 0 =
      (Except.ok ((['a'] : List Char).all (fun c => char_ok (fun _ => true) c)),
       ((['a'] : List Char).map
         (fun c => (type_character (fun _ => true) c).2)).flatten) :=
  ⟨le_rfl, c2_type_string_best_effort (fun _ => true) ['a'] 0 le_rfl⟩

/-- Claim C3: for a valid key code and valid modifier codes, `tap_key`
emits exactly: modifier downs in forward order, the primary key down then
up, then modifier ups in reverse order; and `type_string` emits each
character's event group strictly left to right. -/
theorem c3_emission_order (inject : List KeyEvent → Bool) (vk : Int)
    (modifiers : List Int) (hvk : 0 ≤ vk ∧ vk ≤ 255)
    (hm : ∀ m ∈ modifiers, 0 ≤ m ∧ m ≤ 255) :
    (tap_key inject vk modifiers).2 =
      modifiers.map key_down ++ [key_down vk, key_up vk] ++
        modifiers.reverse.map key_up ∧
    ∀ (text : List Char) (delay : ℚ), 0 ≤ delay →
      (type_string inject text delay).2 =
        (text.map (fun c => (type_character inject c).2)).flatten := by
  constructor
  · rw [tap_key_valid inject vk modifiers hvk hm]
  · intro text delay h
    unfold type_string
    rw [if_neg (not_lt.mpr h), type_string_go_spec]

/-- Claim C3, witness: the theorem applied at key code 65 with modifier
list `[16]`, and at the text `"ab"` with delay `0`. -/
theorem c3_emission_order_witness :
    (tap_key (fun _ => true) 65 [16]).2 =
      ([16] : List Int).map key_down ++ [key_down 65, key_up 65] ++
        ([16] : List Int).reverse.map key_up ∧
    (type_string (fun _ => true) ['a', 'b'] 0).2 =
      ((['a', 'b'] : List Char).map
        (fun c => (type_character (fun _ => true) c).2)).flatten :=
  ⟨(c3_emission_order (fun _ => true) 65 [16] (by decide) (by decide)).1,
   (c3_emission_order (fun _ => true) 65 [16] (by decide) (by decide)).2
     ['a', 'b'] 0 le_rfl⟩

/-- Claim C4, counterexample: `with_modifiers([16, 300])` raises the
invalid-modifier error only after the press event for modifier 16 has
already been emitted, so the operation is partially applied on a
validation error. -/
theorem c4_counterexample :
    (with_modifiers_enter (fun _ => true) [16, 300]).1 =
      Except.error "Invalid modifier key code" ∧
    (with_modifiers_enter (fun _ => true) [16, 300]).2 = [key_down 16] :=
  ⟨rfl, rfl⟩

/-- Claim C4 (amended): `press_key`, `release_key`, `tap_key` and
`type_string` raise validation errors before any key event has been
emitted (an error result comes with an empty emission trace);
`with_modifiers` is excluded, because it validates each modifier
immediately before pressing it, so an invalid modifier after valid ones
raises only after their press events were emitted. -/
theorem c4_validation_before_emission (inject : List KeyEvent → Bool)
    (vk : Int) (modifiers : List Int) (text : List Char) (delay : ℚ) :
    (∀ e, (press_key inject vk).1 = Except.error e →
      (press_key inject vk).2 = []) ∧
    (∀ e, (release_key inject vk).1 = Except.error e →
      (release_key inject vk).2 = []) ∧
    (∀ e, (tap_key inject vk modifiers).1 = Except.error e →
      (tap_key inject vk modifiers).2 = []) ∧
    (∀ e, (type_string inject text delay).1 = Except.error e →
      (type_string inject text delay).2 = []) := by
  refine ⟨?_, ?_, ?_, ?_⟩
  · by_cases h : vk < 0 ∨ vk > 255 <;> simp [press_key, h, send_input]
  · by_cases h : vk < 0 ∨ vk > 255 <;> simp [release_key, h, send_input]
  · by_cases h : vk < 0 ∨ vk > 255
    · simp [tap_key, h]
    · cases hbm : build_mod_downs modifiers <;>
        simp [tap_key, h, hbm, send_input]
  · by_cases h : delay < 0
    · simp [type_string, h]
    · rw [show type_string inject text delay = type_string_go inject text from
        by unfold type_string; rw [if_neg h], type_string_go_spec]
      simp

/-- Claim C4, witness: the amended theorem applied at the invalid key code
300, empty modifiers, the text `"a"` and the invalid delay `-1`. -/
theorem c4_validation_before_emission_witness :
    (press_key (fun _ => true) 300).2 = [] ∧
    (release_key (fun _ => true) 300).2 = [] ∧
    (tap_key (fun _ => true) 300 []).2 = [] ∧
    (type_string (fun _ => true) ['a'] (-1)).2 = [] :=
  ⟨(c4_validation_before_emission (fun _ => true) 300 [] ['a'] (-1)).1
     "Invalid virtual key code" rfl,
   (c4_validation_before_emission (fun _ => true) 300 [] ['a'] (-1)).2.1
     "Invalid virtual key code" rfl,
   (c4_validation_before_emission (fun _ => true) 300 [] ['a'] (-1)).2.2.1
     "Invalid virtual key code" rfl,
   (c4_validation_before_emission (fun _ => true) 300 [] ['a'] (-1)).2.2.2
     "Delay must be non-negative" rfl⟩

/-- Claim C5: the spans returned by `split_text_by_support` concatenate
back to the input, no two adjacent spans share a `supported` flag, and the
empty string yields no spans. -/
theorem c5_split_invariants (text : List Char) :
    ((split_text_by_support text).map Prod.fst).flatten = text ∧
    List.Chain' (fun a b => a.2 ≠ b.2) (split_text_by_support text) ∧
    split_text_by_support ([] : List Char) = [] := by
  refine ⟨?_, ?_, rfl⟩
  · cases text with
    | nil => rfl
    | cons c rest =>
      unfold split_text_by_support
      rw [split_go_flatten]
      simp
  · cases text with
    | nil => exact List.chain'_nil
    | cons c rest =>
      unfold split_text_by_support
      exact split_go_chain _ [] _ [] List.chain'_nil (by simp) (by simp)

/-- Claim C6: `create_typing_profile` fails for `wpm ≤ 0`; for `wpm > 0`
it returns `base_delay = 1 / (wpm * 5 / 60)`, `variance = base_delay * r`
with `r = 0.2` for `wpm ≥ 80`, `r = 0.3` for `40 ≤ wpm < 80`, `r = 0.4`
for `wpm < 40`, `pause_chance = 0.05` and
`pause_duration = base_delay * 3`. -/
theorem c6_create_typing_profile_spec (wpm : Int) :
    (wpm ≤ 0 → create_typing_profile wpm = .error "WPM must be positive") ∧
    (0 < wpm → create_typing_profile wpm = .ok
      { wpm := wpm
        base_delay := 1 / ((wpm : ℚ) * 5 / 60)
        variance := (1 / ((wpm : ℚ) * 5 / 60)) *
          (if wpm ≥ 80 then 0.2 else if wpm ≥ 40 then 0.3 else 0.4)
        pause_chance := 0.05
        pause_duration := (1 / ((wpm : ℚ) * 5 / 60)) * 3 }) := by
  constructor
  · intro h
    unfold create_typing_profile
    rw [if_pos h]
  · intro h
    unfold create_typing_profile
    rw [if_neg (by omega)]

/-- Claim C6, witness: the theorem applied at `wpm = 0` (error branch) and
`wpm = 60` (value branch). -/
theorem c6_create_typing_profile_witness :
    ((0 : Int) ≤ 0 ∧
      create_typing_profile 0 = .error "WPM must be positive") ∧
    ((0 : Int) < 60 ∧ create_typing_profile 60 = .ok
      { wpm := 60
        base_delay := 1 / ((60 : ℚ) * 5 / 60)
        variance := (1 / ((60 : ℚ) * 5 / 60)) *
          (if (60 : Int) ≥ 80 then 0.2 else if (60 : Int) ≥ 40 then 0.3
           else 0.4)
        pause_chance := 0.05
        pause_duration := (1 / ((60 : ℚ) * 5 / 60)) * 3 }) :=
  ⟨⟨le_rfl, (c6_create_typing_profile_spec 0).1 le_rfl⟩,
   ⟨by decide, (c6_create_typing_profile_spec 60).2 (by decide)⟩⟩

/-- Claim C7: under valid arguments and a uniform draw within
`[-variance, variance]`, `humanize_delay` returns a value in
`[max 0 (base - variance), base + variance]`; with zero variance it is
deterministic and returns the base delay exactly, in particular
`humanize_delay 0.1 0 = 0.1`. -/
theorem c7_humanize_delay_bounds (base_delay variance variation : ℚ)
    (hb : 0 ≤ base_delay) (hv : 0 ≤ variance)
    (hlo : -variance ≤ variation) (hhi : variation ≤ variance) :
    (∃ r, humanize_delay base_delay variance variation = .ok r ∧
      max 0 (base_delay - variance) ≤ r ∧ r ≤ base_delay + variance) ∧
    (variance = 0 →
      humanize_delay base_delay variance variation = .ok base_delay) ∧
    humanize_delay 0.1 0 0 = .ok 0.1 := by
  have hok : humanize_delay base_delay variance variation =
      .ok (max 0 (base_delay + variation)) := by
    unfold humanize_delay
    rw [if_neg (not_lt.mpr hb), if_neg (not_lt.mpr hv)]
  refine ⟨⟨max 0 (base_delay + variation), hok, ?_, ?_⟩, ?_, ?_⟩
  · exact max_le_max le_rfl (by linarith)
  · exact max_le (by linarith) (by linarith)
  · intro h0
    have hvar : variation = 0 := by
      rw [h0] at hlo hhi
      linarith
    rw [hok, hvar, add_zero, max_eq_right hb]
  · norm_num [humanize_delay]

/-- Claim C7, witness: the theorem applied at base `1/10`, variance `1/50`
and draw `1/100`. -/
theorem c7_humanize_delay_bounds_witness :
    (0 : ℚ) ≤ 1/10 ∧ (0 : ℚ) ≤ 1/50 ∧ -(1/50 : ℚ) ≤ 1/100 ∧
    (1/100 : ℚ) ≤ 1/50 ∧
    (∃ r, humanize_delay (1/10) (1/50) (1/100) = .ok r ∧
      max 0 ((1/10 : ℚ) - 1/50) ≤ r ∧ r ≤ (1/10 : ℚ) + 1/50) :=
  ⟨by norm_num, by norm_num, by norm_num, by norm_num,
   (c7_humanize_delay_bounds (1/10) (1/50) (1/100) (by norm_num)
     (by norm_num) (by norm_num) (by norm_num)).1⟩

/-- Claim C8: for delay `≥ 0`, `calculate_typing_time` returns
`(n - 1) * delay` when the count `n` of supported characters exceeds one
and `0` otherwise; in particular `0.4` for `"Hello"` at `0.1`, and `0`
for `"A"` and `""`. -/
theorem c8_calculate_typing_time_spec (text : List Char) (delay : ℚ)
    (h : 0 ≤ delay) :
    calculate_typing_time text delay = .ok
      (if 1 < (text.filter (fun c => is_char_supported c)).length
        then (((text.filter (fun c => is_char_supported c)).length : ℚ) - 1)
          * delay
        else 0) ∧
    calculate_typing_time ['H', 'e', 'l', 'l', 'o'] (0.1 : ℚ) = .ok 0.4 ∧
    calculate_typing_time ['A'] (0.1 : ℚ) = .ok 0 ∧
    calculate_typing_time ([] : List Char) (0.1 : ℚ) = .ok 0 := by
  have hgen : ∀ (t : List Char) (d : ℚ), 0 ≤ d →
      calculate_typing_time t d = .ok
        (if 1 < (t.filter (fun c => is_char_supported c)).length
          then (((t.filter (fun c => is_char_supported c)).length : ℚ) - 1) * d
          else 0) := by
    intro t d hd
    unfold calculate_typing_time
    rw [if_neg (not_lt.mpr hd)]
    by_cases h1 : (t.filter (fun c => is_char_supported c)).length ≤ 1
    · rw [if_pos h1, if_neg (by omega)]
    · rw [if_neg h1, if_pos (by omega)]
  refine ⟨hgen text delay h, ?_, ?_, ?_⟩
  · rw [hgen _ _ (by norm_num)]
    have h5 : ((['H', 'e', 'l', 'l', 'o'] : List Char).filter
        (fun c => is_char_supported c)).length = 5 := by decide
    rw [h5]
    norm_num
  · rw [hgen _ _ (by norm_num)]
    have h1 : ((['A'] : List Char).filter
        (fun c => is_char_supported c)).length = 1 := by decide
    rw [h1]
    norm_num
  · rw [hgen _ _ (by norm_num)]
    norm_num

/-- Claim C8, witness: the theorem applied at the text `"a"` and delay
`0`. -/
theorem c8_calculate_typing_time_witness :
    (0 : ℚ) ≤ 0 ∧ calculate_typing_time ['a'] 0 = .ok
      (if 1 < ((['a'] : List Char).filter (fun c => is_char_supported c)).length
        then ((((['a'] : List Char).filter
          (fun c => is_char_supported c)).length : ℚ) - 1) * 0
        else 0) :=
  ⟨le_rfl, (c8_calculate_typing_time_spec ['a'] 0 le_rfl).1⟩

/-- Claim C9, counterexample: a profile dict that has all required keys but
zero `base_delay`, `variance`, `pause_chance` and `pause_duration` makes
`apply_typing_profile "a"` return the single delay `0`, which is not
strictly greater than `0`. -/
theorem c9_counterexample :
    apply_typing_profile ['a'] ⟨60, 0, 0, 0, 0⟩ (fun _ => (1/2, 0)) =
      .ok [0] ∧ ¬ (0 : ℚ) < 0 := by
  have hsup : is_char_supported 'a' = true := by decide
  refine ⟨?_, lt_irrefl 0⟩
  unfold apply_typing_profile
  norm_num [apply_go, hsup, humanize_delay]

/-- Claim C9 (amended): for every text and every profile produced by
`create_typing_profile` on a positive `wpm`, with the uniform draws within
`[-variance, variance]`, `apply_typing_profile` returns exactly one delay
per supported character (unsupported characters contribute no entry), each
strictly greater than `0`. -/
theorem c9_apply_profile_spec (text : List Char) (wpm : Int)
    (p : TypingProfile) (hw : 0 < wpm)
    (hp : create_typing_profile wpm = .ok p) (rnd : Nat → ℚ × ℚ)
    (hr : ∀ k, -p.variance ≤ (rnd k).2 ∧ (rnd k).2 ≤ p.variance) :
    ∃ ds, apply_typing_profile text p rnd = .ok ds ∧
      ds.length = (text.filter (fun c => is_char_supported c)).length ∧
      ∀ d ∈ ds, 0 < d := by
  obtain ⟨hb, hv, hgap, hpd⟩ := create_profile_fields wpm p hw hp
  exact apply_go_spec p rnd hb hv hgap hpd hr text 0

/-- Claim C9, witness: the amended theorem applied at the text `"a"`, the
profile created for `wpm = 60`, and a constant random source. -/
theorem c9_apply_profile_spec_witness :
    ∃ ds, apply_typing_profile ['a'] ⟨60, 1/5, 3/50, 1/20, 3/5⟩
        (fun _ => (1/2, 0)) = .ok ds ∧
      ds.length =
        ((['a'] : List Char).filter (fun c => is_char_supported c)).length ∧
      ∀ d ∈ ds, 0 < d :=
  c9_apply_profile_spec ['a'] 60 ⟨60, 1/5, 3/50, 1/20, 3/5⟩ (by decide)
    (by unfold create_typing_profile
        norm_num [TypingProfile.mk.injEq])
    (fun _ => (1/2, 0)) (fun k => ⟨by norm_num, by norm_num⟩)

/-- Claim C10: typing the empty string with any delay `≥ 0` succeeds and
emits no key events. -/
theorem c10_type_string_empty (inject : List KeyEvent → Bool) (delay : ℚ)
    (h : 0 ≤ delay) :
    type_string inject [] delay = (.ok true, []) := by
  unfold type_string
  rw [if_neg (not_lt.mpr h)]
  rfl

/-- Claim C10, witness: the theorem applied at an always-succeeding
injector and delay `0`. -/
theorem c10_type_string_empty_witness :
    (0 : ℚ) ≤ 0 ∧ type_string (fun _ => true) [] 0 = (.ok true, []) :=
  ⟨le_rfl, c10_type_string_empty (fun _ => true) 0 le_rfl⟩

end PyKeyEmu
